import Mathlib

/-!
Verification of the incremental synchronization engine of `collector.py`.

Modelling conventions, used throughout:

* Timestamps (`datetime` values) are modelled as `Int`, a count of seconds;
  only ordering, differences against a timeout and the fixed sentinel matter.
  `datetime(1900, 1, 1)` is the fixed constant `sentinelEpoch` (its value as
  Unix seconds).  A Python `datetime` is always truthy, so an optional
  timestamp (`datetime` or `None`) is `Option Int`, truthiness = `isSome`.
* Database tables are modelled as lists of rows.  For the sync workers a row
  is reduced to its `RECTIME` key (an `Int`): within one job the other key
  columns (`ObjectId`, `ID`, `OBJID`) are constants, so the unique index that
  triggers duplicate-key failures distinguishes rows by `RECTIME` alone.
  `SELECT MAX(RECTIME)` is `List.max?` (`none` = SQL `NULL`, the table is
  empty); a committed `INSERT` appends to the list.
* The shared caches (`rectime_cache`, `sent_notifications`,
  `files_last_check`) are threaded explicitly; the per-table entry relevant
  to a worker is an `Option` value.  Locks are taken in the source only to
  serialize access; the logic under the lock is what is modelled.
-/

/-- Unix seconds of `datetime(1900, 1, 1)`, the sentinel watermark returned by
`get_last_sync_time_async` for an empty table (collector.py:1493). -/
def sentinelEpoch : Int := -2208988800

/-!
## Telegram rate limiter (collector.py:298-356)
-/

/-- Constructor arguments of `TelegramRateLimiter.__init__` (collector.py:301). -/
structure GateConfig where
  max_messages : Nat
  window_seconds : Int
  cooldown_seconds : Int
deriving DecidableEq

/-- Mutable state of `TelegramRateLimiter`: `message_times` is the deque of
send instants (appended on the right), `cooldown_until` the cooldown deadline,
`suppressed_count` the number of suppressed messages (collector.py:311-314). -/
structure GateState where
  message_times : List Int
  cooldown_until : Option Int
  suppressed_count : Nat
deriving DecidableEq

/-- Initial limiter state (collector.py:311-314). -/
def gateInit : GateState := { message_times := [], cooldown_until := none, suppressed_count := 0 }

/-- The trimming loop of `can_send`:
`while self.message_times and self.message_times[0] < cutoff: popleft()`
(collector.py:338-339).  It removes the prefix of entries older than the
cutoff and stops at the first entry that is not older. -/
def trimOld (cutoff : Int) : List Int → List Int
  | [] => []
  | t :: ts => if t < cutoff then trimOld cutoff ts else t :: ts

/-- The part of `can_send` after the cooldown check (collector.py:336-348):
trim expired history, then admit iff the history length is below
`max_messages`; on reaching the limit enter cooldown with
`suppressed_count = 1` and deny. -/
def can_sendCore (cfg : GateConfig) (now : Int) (s : GateState) : Bool × GateState :=
  let trimmed := trimOld (now - cfg.window_seconds) s.message_times
  if cfg.max_messages ≤ trimmed.length then
    (false, { message_times := trimmed, cooldown_until := some (now + cfg.cooldown_seconds),
              suppressed_count := 1 })
  else
    (true, { s with message_times := trimmed })

/-- `TelegramRateLimiter.can_send` (collector.py:316-348), with the lock held
and `now = datetime.now()` passed explicitly.  During an active cooldown the
call is denied and `suppressed_count` incremented; at cooldown expiry the
suppressed count is logged and the whole state cleared before proceeding. -/
def can_send (cfg : GateConfig) (now : Int) (s : GateState) : Bool × GateState :=
  match s.cooldown_until with
  | some cu =>
    if now < cu then
      (false, { s with suppressed_count := s.suppressed_count + 1 })
    else
      can_sendCore cfg now gateInit
  | none => can_sendCore cfg now s

/-- `TelegramRateLimiter.record_sent` (collector.py:350-356): append the send
instant to the history. -/
def record_sent (now : Int) (s : GateState) : GateState :=
  { s with message_times := s.message_times ++ [now] }

/-- The calling pattern of `send_telegram_message` (collector.py:1385-1401)
over a sequence of non-forced send attempts at the given instants: each
attempt calls `can_send`, and an admitted attempt is followed by
`record_sent`.  Returns the list of admitted instants and the final state. -/
def runGate (cfg : GateConfig) (s : GateState) : List Int → List Int × GateState
  | [] => ([], s)
  | t :: ts =>
    let r := can_send cfg t s
    if r.1 then
      let rest := runGate cfg (record_sent t r.2) ts
      (t :: rest.1, rest.2)
    else
      runGate cfg r.2 ts

/-- Monotonically non-decreasing list of instants (successive `datetime.now()`
readings). -/
def Mono : List Int → Prop
  | [] => True
  | [_] => True
  | a :: b :: l => a ≤ b ∧ Mono (b :: l)

/-- Admission condition recorded for each admitted instant `a`: among the
instants admitted before it, fewer than `max_messages` lie in the closed
window `[a - window_seconds, a]`. -/
def WindowCond (cfg : GateConfig) (l : List Int) (a : Int) : Prop :=
  (l.filter (fun p => decide (a - cfg.window_seconds ≤ p))).length < cfg.max_messages

/-- Every instant of the list satisfies `WindowCond` with respect to the
instants preceding it. -/
def LocallyOK (cfg : GateConfig) (L : List Int) : Prop :=
  ∀ l₁ a l₂, L = l₁ ++ a :: l₂ → WindowCond cfg l₁ a

/-- Invariant tying the limiter state to the list `P` of instants admitted so
far, at current instant `tcur`: history entries are past instants; under an
active cooldown every history entry predates the deadline by a full cooldown;
and every admitted instant still inside the window is (with multiplicity)
in the history. -/
def GateInv (cfg : GateConfig) (P : List Int) (tcur : Int) (s : GateState) : Prop :=
  (∀ m ∈ s.message_times, m ≤ tcur) ∧
  (∀ cu, s.cooldown_until = some cu → ∀ m ∈ s.message_times, m + cfg.cooldown_seconds ≤ cu) ∧
  (∀ x : Int, tcur - cfg.window_seconds ≤ x → P.count x ≤ s.message_times.count x) ∧
  (∀ p ∈ P, p ≤ tcur)

/-!
## Per-table staleness notification (collector.py:1559-1583)

The `sent_notifications` entry for a table is `Option (Bool × Int)`:
the alert-sent flag and the last observed upstream timestamp.
-/

/-- The reset step of `_check_and_notify_logic` (collector.py:1574-1578):
ensure an entry exists, resetting the flag to `false` when the observed
upstream timestamp `t` advances past the recorded one. -/
def notify_reset (t : Int) (entry : Option (Bool × Int)) : Bool × Int :=
  match entry with
  | some e => if e.2 < t then (false, t) else e
  | none => (false, t)

/-- `_check_and_notify_logic` (collector.py:1571-1583) for one table:
`t` is the observed upstream `MAX(RECTIME)` (`none` when the query returned
`NULL`, in which case nothing happens), `now` the current instant, `timeout`
the `notification_timeout`.  Returns the new `sent_notifications` entry and
whether a staleness alert was submitted (to `send_telegram_message`). -/
def notify_logic (now timeout : Int) (t : Option Int) (entry : Option (Bool × Int)) :
    Option (Bool × Int) × Bool :=
  match t with
  | none => (entry, false)
  | some tu =>
    let e := notify_reset tu entry
    if timeout < now - tu ∧ e.1 = false then (some (true, tu), true)
    else (some e, false)

/-- Number of staleness alerts submitted over a sequence of cycles that all
observe the same upstream timestamp `t`, at the given `now` instants. -/
def notify_run (timeout : Int) (t : Option Int) (entry : Option (Bool × Int)) :
    List Int → Nat
  | [] => 0
  | now :: rest =>
    let r := notify_logic now timeout t entry
    (if r.2 then 1 else 0) + notify_run timeout t r.1 rest

/-!
## Watermark read and the MSSQL→MSSQL sync worker
(collector.py:1481-1501, 1586-1682)
-/

/-- `get_last_sync_time_async` (collector.py:1481-1501) with the database
call abstracted: `cache` is the `rectime_cache` entry for the table,
`queryResult` is `none` when `SELECT MAX(RECTIME)` (execute or fetch) raises,
`some none` when it returns SQL `NULL` (empty table) and `some (some m)`
otherwise.  Returns the watermark and the new cache entry: a cache hit
short-circuits; a non-null maximum is returned and stored in the cache;
a null result or an exception yields the sentinel `datetime(1900, 1, 1)`
and leaves the cache unwritten. -/
def get_last_sync_time (use_cache : Bool) (cache : Option Int)
    (queryResult : Option (Option Int)) : Int × Option Int :=
  match use_cache, cache with
  | true, some c => (c, some c)
  | _, _ =>
    match queryResult with
    | none => (sentinelEpoch, cache)
    | some none => (sentinelEpoch, cache)
    | some (some m) => (m, some m)

/-- State a MSSQL→MSSQL sync job acts on: the destination table (list of
`RECTIME` keys) and the `rectime_cache` entry for the destination table. -/
structure MsSqlState where
  dest : List Int
  cache : Option Int
deriving DecidableEq

/-- The watermark read at the top of each cycle
(collector.py:1621, `get_last_sync_time_async` with `use_cache=True`, the
query returning `MAX(RECTIME)` of the destination). -/
def readWm (s : MsSqlState) : Int × MsSqlState :=
  let r := get_last_sync_time true s.cache (some s.dest.max?)
  (r.1, { s with cache := r.2 })

/-- The watermark value a cycle starting from state `s` reads. -/
def watermarkOf (s : MsSqlState) : Int := (readWm s).1

/-- The delta query of `run_sync_mssql_async` (collector.py:1630-1639):
`SELECT ... WHERE [RECTIME] > ? ORDER BY [RECTIME] ASC`.  Rows are the
source rows with `RECTIME` above the watermark, in ascending order. -/
def fetchDelta (source : List Int) (wm : Int) : List Int :=
  List.insertionSort (· ≤ ·) (source.filter (fun r => decide (wm < r)))

/-- One cycle of `run_sync_mssql_async` (collector.py:1610-1682), connections
healthy: read the watermark, fetch the delta, and if non-empty insert it with
a plain `executemany` + `commit` — this path has no duplicate handling, so a
duplicate key (an incoming `RECTIME` already in the destination, or repeated
in the batch) raises, the exception propagates to the worker's outer
`except` (unhealthy status, backoff) and the cycle produces no state change:
result `none`.  On success the cache is set to `rows_to_insert[-1]`'s
`RECTIME` (collector.py:1653-1655). -/
def runCycleMssql (source : List Int) (s : MsSqlState) : Option MsSqlState :=
  let rows := fetchDelta source (watermarkOf s)
  match rows.getLast? with
  | none => some (readWm s).2
  | some last =>
    if (∃ r ∈ rows, r ∈ (readWm s).2.dest) ∨ ¬ rows.Nodup then none
    else some { dest := (readWm s).2.dest ++ rows, cache := some last }

/-- A sequence of successful cycles, one per source snapshot. -/
def runCyclesMssql : List (List Int) → MsSqlState → Option MsSqlState
  | [], s => some s
  | src :: rest, s =>
    match runCycleMssql src s with
    | none => none
    | some s' => runCyclesMssql rest s'

/-!
## The Firebird→MSSQL worker's fetch and insert
(collector.py:1446-1478, 1504-1556, 1685-1746)
-/

/-- `_get_firebird_data_sync` (collector.py:1446-1461):
`SELECT * FROM table WHERE RECTIME > ? AND OBJID = ?` — note: no `ORDER BY`,
so the rows come back in the order the engine stores/returns them, modelled
as the table's list order.  A row is `(RECTIME, OBJID)`; the result keeps the
`RECTIME` keys. -/
def get_firebird_data (table : List (Int × Int)) (last_sync_time objid_filter : Int) :
    List Int :=
  (table.filter (fun r => decide (last_sync_time < r.1 ∧ r.2 = objid_filter))).map Prod.fst

/-- State the Firebird worker acts on: destination table and its
`rectime_cache` entry. -/
structure FbState where
  dest : List Int
  cache : Option Int
deriving DecidableEq

/-- The per-row fallback loop of `insert_into_mssql_async`
(collector.py:1546-1551): insert each row individually, committing successes
and silently dropping duplicate failures. -/
def perRowInsert (dest : List Int) : List Int → List Int
  | [] => dest
  | r :: rs => if r ∈ dest then perRowInsert dest rs else perRowInsert (dest ++ [r]) rs

/-- `insert_into_mssql_async` (collector.py:1513-1556) on the processed batch
`data` (the `RECTIME` keys of `all_values`): an empty batch does nothing;
a clean `executemany` commits the batch and sets the cache to the batch
maximum (`max_rectime`, collector.py:1539-1540); a batch-level duplicate-key
failure (an incoming key already present, or a key repeated in the batch)
rolls the transaction back and re-attempts the rows individually, committing
that — and on this path the cache is not written. -/
def insert_into_mssql (data : List Int) (s : FbState) : FbState :=
  if data.isEmpty then s
  else if (∃ r ∈ data, r ∈ s.dest) ∨ ¬ data.Nodup then
    { s with dest := perRowInsert s.dest data }
  else
    { dest := s.dest ++ data, cache := data.max? }

/-- The watermark read at the top of each Firebird-worker cycle
(collector.py:1715, `get_last_sync_time_async` with `use_cache=True`, the
query returning `MAX(RECTIME)` of the destination): the value read, and the
state with the possibly lazily filled cache entry. -/
def fbRead (s : FbState) : Int × FbState :=
  let r := get_last_sync_time true s.cache (some s.dest.max?)
  (r.1, ⟨s.dest, r.2⟩)

/-- The watermark value a Firebird-worker cycle starting from state `s`
reads. -/
def fbWatermarkOf (s : FbState) : Int := (fbRead s).1

/-- One cycle of `run_sync_firebird_async` (collector.py:1709-1746),
connections healthy and the Firebird fetch succeeding: read the watermark
(`last_sync_time`), fetch the delta with `RECTIME > last_sync_time` filtered
by `OBJID`, and if non-empty insert it through `insert_into_mssql_async`
(collector.py:1723-1724).  Duplicate keys never fail the cycle — the insert
falls back to per-row retries — so every such cycle completes and the worker
is marked healthy. -/
def runCycleFirebird (tbl : List (Int × Int)) (objid : Int) (s : FbState) : FbState :=
  let data := get_firebird_data tbl (fbWatermarkOf s) objid
  if data.isEmpty then (fbRead s).2 else insert_into_mssql data (fbRead s).2

/-- A sequence of successful Firebird-worker cycles, one per source-table
snapshot. -/
def runCyclesFirebird (objid : Int) : List (List (Int × Int)) → FbState → FbState
  | [], s => s
  | tbl :: rest, s => runCyclesFirebird objid rest (runCycleFirebird tbl objid s)

/-!
## The TC2 worker's end-of-cycle watermark adoption
(collector.py:2361-2382)
-/

/-- The periodic `last_db_record` refresh at the end of each TC2 cycle
(collector.py:2365-2374): `current` is the destination's current
`MAX(RECTIME)` as returned by `get_last_sync_time_async(use_cache=False)`
(so never `None`); the worker adopts it only when it differs from and
exceeds the recorded watermark (or none was recorded). -/
def tc2Adopt (last : Option Int) (current : Int) : Option Int :=
  match last with
  | none => some current
  | some l => if current ≠ l ∧ l < current then some current else some l

/-!
## TC2 current-day file selection (collector.py:2190-2213, 2279)
-/

/-- `file_updated_after_db = not last_db_record or file_mtime > last_db_record`
(collector.py:2196). -/
def fileUpdatedAfterDb (mtime : Int) (last_db_record : Option Int) : Bool :=
  match last_db_record with
  | none => true
  | some d => decide (d < mtime)

/-- The current-day branch of the file filter (collector.py:2190-2213):
a file whose embedded date is today is selected iff it was never checked, or
`file_check_interval` has elapsed since its last check, or it was modified
after the last database record and at least 300 seconds (5 minutes) have
elapsed since its last check. -/
def shouldProcessToday (now mtime : Int) (last_db_record last_check : Option Int)
    (file_check_interval : Int) : Bool :=
  match last_check with
  | none => true
  | some lc =>
    if file_check_interval ≤ now - lc then true
    else if fileUpdatedAfterDb mtime last_db_record && decide (300 ≤ now - lc) then true
    else false

/-- One scan's decision for a current-day file plus the bookkeeping of
`files_last_check` (collector.py:2279): the last-check instant is recorded
(set to `now`) only when the file is selected for processing. -/
def scanStep (now mtime : Int) (last_db_record : Option Int) (file_check_interval : Int)
    (last_check : Option Int) : Bool × Option Int :=
  let p := shouldProcessToday now mtime last_db_record last_check file_check_interval
  (p, if p then some now else last_check)

/-- C8: With the gate configured `max_messages=5, window_seconds=60,
cooldown_seconds=300` (Scenario E): six `can_send` calls within one second
(all at instant 0), each admitted call followed by `record_sent`, admit the
first five and deny the sixth, which starts the cooldown (deadline 300,
`suppressed_count = 1`).  A call 299 seconds after the denial is still denied
(it only increments the suppressed count); a call 301 seconds after the
denial finds the cooldown expired — the suppressed count (2) is the value
logged at that point — clears the gate state (history, cooldown, suppressed
count, i.e. the state passed on is `gateInit`) and is admitted. -/
theorem c8_rate_limit_scenario :
    runGate ⟨5, 60, 300⟩ gateInit [0, 0, 0, 0, 0, 0]
        = ([0, 0, 0, 0, 0], ⟨[0, 0, 0, 0, 0], some 300, 1⟩)
      ∧ can_send ⟨5, 60, 300⟩ 299 ⟨[0, 0, 0, 0, 0], some 300, 1⟩
        = (false, ⟨[0, 0, 0, 0, 0], some 300, 2⟩)
      ∧ can_send ⟨5, 60, 300⟩ 301 ⟨[0, 0, 0, 0, 0], some 300, 2⟩
        = (true, gateInit)
      ∧ runGate ⟨5, 60, 300⟩ gateInit [0, 0, 0, 0, 0, 0, 299, 301]
        = ([0, 0, 0, 0, 0, 301], ⟨[301], none, 0⟩) := by
  refine ⟨by decide, by decide, by decide, by decide⟩

/-- C4 counterexample: with `max_messages=1, window_seconds=10,
cooldown_seconds=2`, the monotone call sequence `[0, 0, 2]` (each admitted
call followed by `record_sent`) yields two admissions, at instants 0 and 2,
both inside the rolling window `[0, 10]` — more than `max_messages = 1`.
The denial at instant 0 starts a cooldown that expires at instant 2; expiry
clears the history, so the admission at instant 2 no longer sees the one at
instant 0.  The claimed bound therefore fails whenever the cooldown is
shorter than the window. -/
theorem c4_counterexample :
    ((runGate ⟨1, 10, 2⟩ gateInit [0, 0, 2]).1.filter
        (fun a => decide (0 ≤ a ∧ a ≤ 0 + (10 : Int)))).length = 2
      ∧ ¬ ((runGate ⟨1, 10, 2⟩ gateInit [0, 0, 2]).1.filter
        (fun a => decide (0 ≤ a ∧ a ≤ 0 + (10 : Int)))).length ≤ (⟨1, 10, 2⟩ : GateConfig).max_messages := by
  refine ⟨by decide, by decide⟩

lemma trimOld_mem {cutoff : Int} {l : List Int} {m : Int} (h : m ∈ trimOld cutoff l) : m ∈ l := by
  induction l with
  | nil => exact absurd h (by simp [trimOld])
  | cons t ts ih =>
    by_cases hc : t < cutoff
    · simp only [trimOld, if_pos hc] at h
      exact List.mem_cons_of_mem _ (ih h)
    · simpa [trimOld, if_neg hc] using h

lemma trimOld_count {cutoff x : Int} (hx : cutoff ≤ x) (l : List Int) :
    (trimOld cutoff l).count x = l.count x := by
  induction l with
  | nil => rfl
  | cons t ts ih =>
    by_cases hc : t < cutoff
    · have hne : (t == x) = false := by
        simp only [beq_eq_false_iff_ne, ne_eq]
        intro he
        omega
      rw [trimOld, if_pos hc, ih, List.count_cons, hne]
      simp
    · simp [trimOld, if_neg hc]

lemma gateInv_mono_time {cfg : GateConfig} {P : List Int} {tcur t : Int} {s : GateState}
    (h : GateInv cfg P tcur s) (ht : tcur ≤ t) : GateInv cfg P t s := by
  obtain ⟨h1, h2, h3, h4⟩ := h
  refine ⟨fun m hm => le_trans (h1 m hm) ht, h2, fun x hx => h3 x (by omega),
    fun p hp => le_trans (h4 p hp) ht⟩

lemma core_inv_false {cfg : GateConfig} {P : List Int} {t : Int} {s s' : GateState}
    (h : GateInv cfg P t s) (hc : can_sendCore cfg t s = (false, s')) : GateInv cfg P t s' := by
  obtain ⟨h1, h2, h3, h4⟩ := h
  simp only [can_sendCore] at hc
  by_cases hlen : cfg.max_messages ≤ (trimOld (t - cfg.window_seconds) s.message_times).length
  · simp only [if_pos hlen, Prod.mk.injEq] at hc
    obtain ⟨-, hs'⟩ := hc
    subst hs'
    refine ⟨fun m hm => h1 m (trimOld_mem hm),
      fun cu hcu m hm => ?_,
      fun x hx => le_trans (h3 x hx) (le_of_eq (trimOld_count hx _).symm),
      h4⟩
    · simp only [Option.some.injEq] at hcu
      have := h1 m (trimOld_mem hm)
      omega
  · simp only [if_neg hlen, Prod.mk.injEq] at hc
    exact absurd hc.1 (by simp)

lemma core_inv_true {cfg : GateConfig} {P : List Int} {t : Int} {s s' : GateState}
    (h : GateInv cfg P t s) (hnone : s.cooldown_until = none)
    (hc : can_sendCore cfg t s = (true, s')) :
    WindowCond cfg P t ∧ GateInv cfg (P ++ [t]) t (record_sent t s') := by
  obtain ⟨h1, h2, h3, h4⟩ := h
  simp only [can_sendCore] at hc
  by_cases hlen : cfg.max_messages ≤ (trimOld (t - cfg.window_seconds) s.message_times).length
  · simp only [if_pos hlen, Prod.mk.injEq] at hc
    exact absurd hc.1 (by simp)
  · simp only [if_neg hlen, Prod.mk.injEq] at hc
    obtain ⟨-, hs'⟩ := hc
    subst hs'
    push_neg at hlen
    have hsub : (P.filter (fun p => decide (t - cfg.window_seconds ≤ p))).Subperm
        (trimOld (t - cfg.window_seconds) s.message_times) := by
      rw [List.subperm_ext_iff]
      intro x hx
      have hxw : t - cfg.window_seconds ≤ x := by
        have := (List.mem_filter.mp hx).2
        simpa using this
      rw [List.count_filter (by simpa using hxw), trimOld_count hxw]
      exact h3 x hxw
    have hwc : WindowCond cfg P t := lt_of_le_of_lt hsub.length_le hlen
    refine ⟨hwc, ?_, ?_, ?_, ?_⟩
    · intro m hm
      simp only [record_sent, List.mem_append, List.mem_singleton] at hm
      rcases hm with hm | rfl
      · exact h1 m (trimOld_mem hm)
      · exact le_refl _
    · intro cu hcu
      simp only [record_sent, hnone] at hcu
      exact absurd hcu (by simp)
    · intro x hx
      simp only [record_sent, List.count_append]
      rw [trimOld_count hx]
      have := h3 x hx
      omega
    · intro p hp
      simp only [List.mem_append, List.mem_singleton] at hp
      rcases hp with hp | rfl
      · exact h4 p hp
      · exact le_refl _

lemma gateInit_inv {cfg : GateConfig} {P : List Int} {t : Int} {s : GateState} {cu : Int}
    (hCW : cfg.window_seconds < cfg.cooldown_seconds)
    (h : GateInv cfg P t s) (hcu : s.cooldown_until = some cu) (hexp : cu ≤ t) :
    GateInv cfg P t gateInit := by
  obtain ⟨h1, h2, h3, h4⟩ := h
  refine ⟨by simp [gateInit], by simp [gateInit], fun x hx => ?_, h4⟩
  simp only [gateInit, List.count_nil]
  by_contra hpos
  push_neg at hpos
  have hxmem : x ∈ s.message_times := by
    have hcount : 0 < s.message_times.count x := lt_of_lt_of_le hpos (h3 x hx)
    exact List.count_pos_iff.mp hcount
  have := h2 cu hcu x hxmem
  omega

lemma send_inv_false {cfg : GateConfig} {P : List Int} {t : Int} {s s' : GateState}
    (hCW : cfg.window_seconds < cfg.cooldown_seconds)
    (h : GateInv cfg P t s) (hc : can_send cfg t s = (false, s')) : GateInv cfg P t s' := by
  obtain ⟨h1, h2, h3, h4⟩ := h
  match hcu : s.cooldown_until with
  | some cu =>
    simp only [can_send, hcu] at hc
    by_cases hlt : t < cu
    · simp only [if_pos hlt, Prod.mk.injEq] at hc
      obtain ⟨-, hs'⟩ := hc
      subst hs'
      exact ⟨h1, fun c hcueq m hm => h2 c (by rw [hcu]; simpa using hcueq) m hm, h3, h4⟩
    · simp only [if_neg hlt] at hc
      exact core_inv_false (gateInit_inv hCW ⟨h1, h2, h3, h4⟩ hcu (by omega)) hc
  | none =>
    simp only [can_send, hcu] at hc
    exact core_inv_false ⟨h1, h2, h3, h4⟩ hc

lemma send_inv_true {cfg : GateConfig} {P : List Int} {t : Int} {s s' : GateState}
    (hCW : cfg.window_seconds < cfg.cooldown_seconds)
    (h : GateInv cfg P t s) (hc : can_send cfg t s = (true, s')) :
    WindowCond cfg P t ∧ GateInv cfg (P ++ [t]) t (record_sent t s') := by
  match hcu : s.cooldown_until with
  | some cu =>
    simp only [can_send, hcu] at hc
    by_cases hlt : t < cu
    · simp only [if_pos hlt, Prod.mk.injEq] at hc
      exact absurd hc.1 (by simp)
    · simp only [if_neg hlt] at hc
      exact core_inv_true (gateInit_inv hCW h hcu (by omega)) rfl hc
  | none =>
    simp only [can_send, hcu] at hc
    exact core_inv_true h hcu hc

lemma locallyOK_append_singleton {cfg : GateConfig} {L : List Int} {a : Int}
    (h : LocallyOK cfg L) (hc : WindowCond cfg L a) : LocallyOK cfg (L ++ [a]) := by
  intro l₁ b l₂ heq
  rcases List.eq_nil_or_concat l₂ with rfl | ⟨l₂', c, rfl⟩
  · have : L = l₁ ∧ a = b := by
      have h2 := List.append_inj' heq rfl
      simpa using h2
    obtain ⟨rfl, rfl⟩ := this
    exact hc
  · rw [List.concat_eq_append] at heq
    have heq2 : L ++ [a] = (l₁ ++ b :: l₂') ++ [c] := by
      simpa using heq
    have : L = l₁ ++ b :: l₂' ∧ a = c := by
      have h2 := List.append_inj' heq2 rfl
      simpa using h2
    exact h l₁ b l₂' this.1

lemma runGate_locallyOK {cfg : GateConfig}
    (hCW : cfg.window_seconds < cfg.cooldown_seconds) :
    ∀ (ts P : List Int) (tcur : Int) (s : GateState),
      GateInv cfg P tcur s → LocallyOK cfg P → Mono (tcur :: ts) →
      LocallyOK cfg (P ++ (runGate cfg s ts).1) := by
  intro ts
  induction ts with
  | nil =>
    intro P tcur s hinv hok _
    simpa [runGate] using hok
  | cons t ts ih =>
    intro P tcur s hinv hok hmono
    obtain ⟨hle, hmono'⟩ : tcur ≤ t ∧ Mono (t :: ts) := by
      cases ts <;> exact hmono
    have hinv' := gateInv_mono_time hinv hle
    match hr : can_send cfg t s with
    | (true, s') =>
      obtain ⟨hwc, hinv2⟩ := send_inv_true hCW hinv' hr
      have hok2 := locallyOK_append_singleton hok hwc
      have := ih (P ++ [t]) t (record_sent t s') hinv2 hok2 hmono'
      simp only [runGate, hr]
      simpa [List.append_assoc] using this
    | (false, s') =>
      have hinv2 := send_inv_false hCW hinv' hr
      have := ih P t s' hinv2 hok hmono'
      simp only [runGate, hr]
      simpa using this

lemma bound_of_locallyOK {cfg : GateConfig} (L : List Int) (h : LocallyOK cfg L) (T : Int) :
    (L.filter (fun a => decide (T ≤ a ∧ a ≤ T + cfg.window_seconds))).length
      ≤ cfg.max_messages := by
  induction L using List.reverseRecOn with
  | nil => simp
  | append_singleton L a ih =>
    have hL : LocallyOK cfg L := by
      intro l₁ b l₂ heq
      exact h l₁ b (l₂ ++ [a]) (by rw [heq]; simp)
    have hcond : WindowCond cfg L a := h L a [] rfl
    rw [List.filter_append]
    by_cases hin : T ≤ a ∧ a ≤ T + cfg.window_seconds
    · have hfa : List.filter (fun a => decide (T ≤ a ∧ a ≤ T + cfg.window_seconds)) [a] = [a] := by
        simp [hin]
      rw [hfa, List.length_append]
      have hsub : (L.filter (fun x => decide (T ≤ x ∧ x ≤ T + cfg.window_seconds))).Sublist
          (L.filter (fun p => decide (a - cfg.window_seconds ≤ p))) := by
        apply List.monotone_filter_right
        intro x hx
        simp only [decide_eq_true_eq] at hx ⊢
        omega
      have := lt_of_le_of_lt hsub.length_le hcond
      simpa using this
    · have hfa : List.filter (fun a => decide (T ≤ a ∧ a ≤ T + cfg.window_seconds)) [a] = [] := by
        simp [hin]
      rw [hfa, List.append_nil]
      exact ih hL

/-- C4 (amended): provided the cooldown is strictly longer than the window
(`cooldown_seconds > window_seconds`, as with the defaults 5/60/300), for
every monotone sequence of non-forced calls to the gate in which each
admitted `can_send` is followed by `record_sent`, every rolling closed
interval of length `window_seconds` contains at most `max_messages` admitted
instants.  Without that proviso the bound fails (`c4_counterexample`):
cooldown expiry clears the history, forgetting admissions that are still
inside the window. -/
theorem c4_rate_limit_window_bound (cfg : GateConfig)
    (hCW : cfg.window_seconds < cfg.cooldown_seconds)
    (ts : List Int) (hts : Mono ts) (T : Int) :
    ((runGate cfg gateInit ts).1.filter
        (fun a => decide (T ≤ a ∧ a ≤ T + cfg.window_seconds))).length
      ≤ cfg.max_messages := by
  match ts with
  | [] => simp [runGate]
  | t :: ts' =>
    have hinv : GateInv cfg [] t gateInit := by
      refine ⟨by simp [gateInit], by simp [gateInit], by simp [gateInit], by simp⟩
    have hok : LocallyOK cfg [] := by
      intro l₁ a l₂ heq
      exact absurd heq (by simp)
    have hmono : Mono (t :: t :: ts') := ⟨le_refl t, hts⟩
    have h := runGate_locallyOK hCW (t :: ts') [] t gateInit hinv hok hmono
    simp only [List.nil_append] at h
    exact bound_of_locallyOK _ h T

/-- Witness for `c4_rate_limit_window_bound` at the default configuration and
a concrete monotone call sequence. -/
theorem c4_rate_limit_window_bound_witness :
    ((runGate ⟨5, 60, 300⟩ gateInit [0, 1, 2]).1.filter
        (fun a => decide ((0 : Int) ≤ a ∧ a ≤ 0 + (⟨5, 60, 300⟩ : GateConfig).window_seconds))).length
      ≤ (⟨5, 60, 300⟩ : GateConfig).max_messages :=
  c4_rate_limit_window_bound ⟨5, 60, 300⟩ (by norm_num) [0, 1, 2] (by simp [Mono]) 0

lemma notify_run_sent (timeout tu : Int) :
    ∀ nows : List Int, notify_run timeout (some tu) (some (true, tu)) nows = 0 := by
  intro nows
  induction nows with
  | nil => rfl
  | cons now rest ih =>
    have hr : notify_logic now timeout (some tu) (some (true, tu)) = (some (true, tu), false) := by
      simp [notify_logic, notify_reset]
    simp only [notify_run, hr]
    simpa using ih

lemma notify_run_le_one (timeout tu : Int) :
    ∀ (nows : List Int) (entry : Option (Bool × Int)),
      notify_run timeout (some tu) entry nows ≤ 1 := by
  intro nows
  induction nows with
  | nil => intro entry; exact Nat.zero_le 1
  | cons now rest ih =>
    intro entry
    match hr : notify_logic now timeout (some tu) entry with
    | (e', true) =>
      have he' : e' = some (true, tu) := by
        simp only [notify_logic] at hr
        by_cases hcond : timeout < now - tu ∧ (notify_reset tu entry).1 = false
        · simp only [if_pos hcond, Prod.mk.injEq] at hr
          exact hr.1.symm
        · simp only [if_neg hcond, Prod.mk.injEq] at hr
          exact absurd hr.2 (by simp)
      simp only [notify_run, hr, he']
      simpa using notify_run_sent timeout tu rest
    | (e', false) =>
      simp only [notify_run, hr]
      simpa using ih e'

/-- C3: For a given table, (1) while the observed upstream maximum timestamp
stays at the same value `tu` and every check finds it older than
`notification_timeout`, at most one staleness alert is submitted over the
whole sequence of checks, from any starting entry; and (2) the reset step
sets the alert-sent flag to `false` whenever the observed upstream timestamp
advances past the recorded one. -/
theorem c3_staleness_alert_once :
    (∀ (timeout tu : Int) (entry : Option (Bool × Int)) (nows : List Int),
       (∀ n ∈ nows, timeout < n - tu) →
       notify_run timeout (some tu) entry nows ≤ 1)
    ∧ (∀ (flag : Bool) (t0 t : Int), t0 < t →
       notify_reset t (some (flag, t0)) = (false, t)) := by
  constructor
  · intro timeout tu entry nows _
    exact notify_run_le_one timeout tu nows entry
  · intro flag t0 t h
    simp [notify_reset, h]

/-- Witness for `c3_staleness_alert_once`: a table whose upstream timestamp 0
is checked at instants 8000 and 9000 with a 7200-second timeout (both stale)
submits at most one alert, and a recorded entry `(true, 3)` observed to
advance to 5 is reset to `(false, 5)`. -/
theorem c3_staleness_alert_once_witness :
    notify_run 7200 (some 0) none [8000, 9000] ≤ 1
    ∧ notify_reset 5 (some (true, 3)) = (false, 5) :=
  ⟨c3_staleness_alert_once.1 7200 0 none [8000, 9000] (by
      intro n hn
      simp only [List.mem_cons, List.mem_singleton] at hn
      rcases hn with rfl | hn
      · norm_num
      · simp only [List.mem_nil_iff, or_false] at hn
        subst hn
        norm_num),
   c3_staleness_alert_once.2 true 3 5 (by norm_num)⟩

lemma getLast?_mem {l : List Int} {a : Int} (h : l.getLast? = some a) : a ∈ l := by
  obtain ⟨hne, rfl⟩ := List.mem_getLast?_eq_getLast (show a ∈ l.getLast? from h)
  exact List.getLast_mem hne

lemma sorted_le_getLast : ∀ {l : List Int}, List.Sorted (· ≤ ·) l →
    ∀ {a : Int}, l.getLast? = some a → ∀ x ∈ l, x ≤ a := by
  intro l
  induction l with
  | nil =>
    intro _ a h
    simp at h
  | cons b t ih =>
    intro hs a hl x hx
    cases t with
    | nil =>
      simp only [List.getLast?_singleton, Option.some_inj] at hl
      simp only [List.mem_singleton] at hx
      omega
    | cons c t' =>
      rw [List.getLast?_cons_cons] at hl
      rcases List.mem_cons.mp hx with rfl | hx'
      · exact List.rel_of_sorted_cons hs a (getLast?_mem hl)
      · exact ih hs.of_cons hl x hx'

lemma fetchDelta_sorted (src : List Int) (wm : Int) :
    List.Sorted (· ≤ ·) (fetchDelta src wm) :=
  List.sorted_insertionSort _ _

lemma fetchDelta_mem {src : List Int} {wm x : Int} :
    x ∈ fetchDelta src wm ↔ x ∈ src ∧ wm < x := by
  unfold fetchDelta
  rw [(List.perm_insertionSort _ _).mem_iff, List.mem_filter]
  simp

lemma readWm_hit {s : MsSqlState} {c : Int} (h : s.cache = some c) : readWm s = (c, s) := by
  obtain ⟨d, cache⟩ := s
  simp only [MsSqlState.mk.injEq] at h
  subst h
  rfl

lemma watermarkOf_cache_some (d : List Int) (c : Int) : watermarkOf ⟨d, some c⟩ = c := rfl

lemma readWm_stable (s : MsSqlState) :
    watermarkOf (readWm s).2 = watermarkOf s ∧ (readWm s).2.dest = s.dest := by
  obtain ⟨d, cache⟩ := s
  cases cache with
  | some c => simp [watermarkOf, readWm, get_last_sync_time]
  | none =>
    cases hm : d.max? with
    | some m => simp [watermarkOf, readWm, get_last_sync_time, hm]
    | none => simp [watermarkOf, readWm, get_last_sync_time, hm]

lemma runCycleMssql_none {src : List Int} {s : MsSqlState}
    (h : (fetchDelta src (watermarkOf s)).getLast? = none) :
    runCycleMssql src s = some (readWm s).2 := by
  simp only [runCycleMssql, h]

lemma runCycleMssql_some {src : List Int} {s : MsSqlState} {last : Int}
    (h : (fetchDelta src (watermarkOf s)).getLast? = some last) :
    runCycleMssql src s =
      if (∃ r ∈ fetchDelta src (watermarkOf s), r ∈ (readWm s).2.dest)
          ∨ ¬ (fetchDelta src (watermarkOf s)).Nodup then none
      else some { dest := (readWm s).2.dest ++ fetchDelta src (watermarkOf s),
                  cache := some last } := by
  simp only [runCycleMssql, h]

lemma runCycleMssql_wm_mono {src : List Int} {s s' : MsSqlState}
    (h : runCycleMssql src s = some s') : watermarkOf s ≤ watermarkOf s' := by
  cases hlast : (fetchDelta src (watermarkOf s)).getLast? with
  | none =>
    rw [runCycleMssql_none hlast] at h
    obtain rfl := Option.some_inj.mp h
    exact le_of_eq (readWm_stable s).1.symm
  | some last =>
    rw [runCycleMssql_some hlast] at h
    split_ifs at h with hdup
    obtain rfl := Option.some_inj.mp h
    have hmem : last ∈ fetchDelta src (watermarkOf s) := getLast?_mem hlast
    have hlt : watermarkOf s < last := (fetchDelta_mem.mp hmem).2
    rw [watermarkOf_cache_some]
    omega

lemma runCyclesMssql_wm_mono : ∀ (srcs : List (List Int)) {s s' : MsSqlState},
    runCyclesMssql srcs s = some s' → watermarkOf s ≤ watermarkOf s' := by
  intro srcs
  induction srcs with
  | nil =>
    intro s s' h
    obtain rfl := Option.some_inj.mp h
    exact le_refl _
  | cons src rest ih =>
    intro s s' h
    simp only [runCyclesMssql] at h
    match hc : runCycleMssql src s with
    | none => rw [hc] at h; exact absurd h (by simp)
    | some s1 =>
      rw [hc] at h
      exact le_trans (runCycleMssql_wm_mono hc) (ih h)

lemma perRowInsert_mem : ∀ (data dest : List Int) (x : Int),
    x ∈ perRowInsert dest data ↔ x ∈ dest ∨ x ∈ data := by
  intro data
  induction data with
  | nil =>
    intro dest x
    simp [perRowInsert]
  | cons r rs ih =>
    intro dest x
    by_cases hr : r ∈ dest
    · rw [perRowInsert, if_pos hr, ih]
      simp only [List.mem_cons]
      constructor
      · rintro (h | h)
        · exact Or.inl h
        · exact Or.inr (Or.inr h)
      · rintro (h | rfl | h)
        · exact Or.inl h
        · exact Or.inl hr
        · exact Or.inr h
    · rw [perRowInsert, if_neg hr, ih]
      simp only [List.mem_append, List.mem_singleton, List.mem_cons]
      tauto

lemma foldl_max_le : ∀ (as : List Int) (a x : Int), x = a ∨ x ∈ as → x ≤ as.foldl max a := by
  intro as
  induction as with
  | nil =>
    intro a x h
    rcases h with rfl | h
    · exact le_refl x
    · exact absurd h (List.not_mem_nil x)
  | cons b bs ih =>
    intro a x h
    show x ≤ bs.foldl max (max a b)
    rcases h with rfl | hx
    · exact le_trans (le_max_left x b) (ih (max x b) (max x b) (Or.inl rfl))
    · rcases List.mem_cons.mp hx with ha | hx'
      · rw [ha]
        exact le_trans (le_max_right a b) (ih (max a b) (max a b) (Or.inl rfl))
      · exact ih (max a b) x (Or.inr hx')

lemma foldl_max_mem : ∀ (as : List Int) (a : Int), as.foldl max a = a ∨ as.foldl max a ∈ as := by
  intro as
  induction as with
  | nil => intro a; exact Or.inl rfl
  | cons b bs ih =>
    intro a
    show bs.foldl max (max a b) = a ∨ bs.foldl max (max a b) ∈ b :: bs
    rcases ih (max a b) with heq | hmem
    · rcases max_choice a b with hab | hab
      · exact Or.inl (heq.trans hab)
      · rw [heq, hab]
        exact Or.inr (List.mem_cons_self b bs)
    · exact Or.inr (List.mem_cons_of_mem b hmem)

lemma max?_spec : ∀ {l : List Int} {m : Int}, l.max? = some m → m ∈ l ∧ ∀ x ∈ l, x ≤ m := by
  intro l m h
  cases l with
  | nil => exact absurd h (by simp)
  | cons a as =>
    have hm : as.foldl max a = m := Option.some_inj.mp h
    constructor
    · rw [hm.symm]
      rcases foldl_max_mem as a with heq | hmem
      · rw [heq]
        exact List.mem_cons_self a as
      · exact List.mem_cons_of_mem a hmem
    · intro x hx
      rw [hm.symm]
      rcases List.mem_cons.mp hx with ha | hx'
      · exact foldl_max_le as a x (Or.inl ha)
      · exact foldl_max_le as a x (Or.inr hx')

lemma get_firebird_data_gt {tbl : List (Int × Int)} {wm objid x : Int}
    (hx : x ∈ get_firebird_data tbl wm objid) : wm < x := by
  unfold get_firebird_data at hx
  obtain ⟨r, hr, rfl⟩ := List.mem_map.mp hx
  have h2 := (List.mem_filter.mp hr).2
  simp only [decide_eq_true_eq] at h2
  exact h2.1

lemma fbWatermarkOf_cache_some (d : List Int) (c : Int) : fbWatermarkOf ⟨d, some c⟩ = c := rfl

lemma fbRead_dest (s : FbState) : (fbRead s).2.dest = s.dest := rfl

lemma fbWatermarkOf_cache_none (d : List Int) :
    fbWatermarkOf ⟨d, none⟩ = d.max?.getD sentinelEpoch := by
  cases hm : d.max? with
  | some m => simp [fbWatermarkOf, fbRead, get_last_sync_time, hm]
  | none => simp [fbWatermarkOf, fbRead, get_last_sync_time, hm]

lemma fbRead_stable (s : FbState) : fbWatermarkOf (fbRead s).2 = fbWatermarkOf s := by
  obtain ⟨d, cache⟩ := s
  cases cache with
  | some c => rfl
  | none =>
    cases hm : d.max? with
    | some m => simp [fbWatermarkOf, fbRead, get_last_sync_time, hm]
    | none => simp [fbWatermarkOf, fbRead, get_last_sync_time, hm]

lemma insert_into_mssql_wm_mono (data : List Int) (u : FbState)
    (hgt : ∀ x ∈ data, fbWatermarkOf u < x) :
    fbWatermarkOf u ≤ fbWatermarkOf (insert_into_mssql data u) := by
  obtain ⟨d, cache⟩ := u
  by_cases hemp : data.isEmpty
  · rw [insert_into_mssql, if_pos hemp]
  · rw [insert_into_mssql, if_neg hemp]
    have hne : data ≠ [] := by simpa using hemp
    by_cases hdup : (∃ r ∈ data, r ∈ d) ∨ ¬ data.Nodup
    · rw [if_pos hdup]
      cases cache with
      | some c => exact le_refl c
      | none =>
        rw [fbWatermarkOf_cache_none, fbWatermarkOf_cache_none]
        cases hd : d.max? with
        | none =>
          obtain rfl := List.max?_eq_none_iff.mp hd
          cases hp : (perRowInsert ([] : List Int) data).max? with
          | none => exact le_refl _
          | some m =>
            have hm : m ∈ data := by
              rcases (perRowInsert_mem data [] m).mp (max?_spec hp).1 with h0 | h0
              · exact absurd h0 (List.not_mem_nil m)
              · exact h0
            have := hgt m hm
            rw [fbWatermarkOf_cache_none] at this
            simp only [List.max?_nil, Option.getD_none, Option.getD_some] at this ⊢
            omega
        | some dm =>
          have hdm : dm ∈ perRowInsert d data :=
            (perRowInsert_mem data d dm).mpr (Or.inl (max?_spec hd).1)
          cases hp : (perRowInsert d data).max? with
          | none =>
            rw [List.max?_eq_none_iff.mp hp] at hdm
            exact absurd hdm (List.not_mem_nil dm)
          | some pm =>
            simp only [Option.getD_some]
            exact (max?_spec hp).2 dm hdm
    · rw [if_neg hdup]
      cases hm : data.max? with
      | none => exact absurd (List.max?_eq_none_iff.mp hm) hne
      | some m =>
        have := hgt m (max?_spec hm).1
        rw [fbWatermarkOf_cache_some]
        omega

lemma runCycleFirebird_wm_mono (tbl : List (Int × Int)) (objid : Int) (s : FbState) :
    fbWatermarkOf s ≤ fbWatermarkOf (runCycleFirebird tbl objid s) := by
  simp only [runCycleFirebird]
  by_cases hemp : (get_firebird_data tbl (fbWatermarkOf s) objid).isEmpty
  · rw [if_pos hemp]
    exact le_of_eq (fbRead_stable s).symm
  · rw [if_neg hemp]
    calc fbWatermarkOf s = fbWatermarkOf (fbRead s).2 := (fbRead_stable s).symm
      _ ≤ _ := insert_into_mssql_wm_mono _ _ (fun x hx => by
            rw [fbRead_stable]
            exact get_firebird_data_gt hx)

lemma runCyclesFirebird_wm_mono (objid : Int) :
    ∀ (tbls : List (List (Int × Int))) (s : FbState),
      fbWatermarkOf s ≤ fbWatermarkOf (runCyclesFirebird objid tbls s) := by
  intro tbls
  induction tbls with
  | nil => intro s; exact le_refl _
  | cons tbl rest ih =>
    intro s
    exact le_trans (runCycleFirebird_wm_mono tbl objid s) (ih (runCycleFirebird tbl objid s))

/-- C1 counterexample: on the Firebird→MSSQL worker the claim fails.  With
the destination holding the row at key 10, the cache entry at 0 and the
source table rows `(5,1), (10,1), (15,1)` under object filter 1, the fetched
batch is `[5, 10, 15]` (non-empty, greatest timestamp 15).  The cycle
completes successfully — the batch-level duplicate failure is handled by the
per-row fallback, which inserts the two missing rows 5 and 15 — but that
fallback path never calls `set_cached_rectime` (collector.py:1542-1556), so
after the cycle the cached watermark is still 0, not the batch maximum 15:
"the cached watermark equals the greatest timestamp in the inserted batch"
is false for this destination table. -/
theorem c1_counterexample :
    runCycleFirebird [(5, 1), (10, 1), (15, 1)] 1 ⟨[10], some 0⟩ = ⟨[10, 5, 15], some 0⟩
    ∧ get_firebird_data [(5, 1), (10, 1), (15, 1)] (fbWatermarkOf ⟨[10], some 0⟩) 1
        = [5, 10, 15]
    ∧ ¬ (runCycleFirebird [(5, 1), (10, 1), (15, 1)] 1 ⟨[10], some 0⟩).cache = some 15 := by
  refine ⟨by decide, by decide, by decide⟩

/-- C1 (amended): covering both workers of the cited scope.
MSSQL→MSSQL worker: (1) a successful cycle whose fetched delta is non-empty
(its last element is `last`) sets the cache entry to `last`, which belongs to
the batch and is its greatest timestamp; (2) over any sequence of successful
cycles the stored watermark is non-decreasing.  Firebird→MSSQL worker:
(3) a cycle whose batch insert commits cleanly (no duplicate in the batch or
destination) sets the cache to the batch maximum `max_rectime`; (4) a cycle
that takes the duplicate fallback completes but leaves the cache exactly as
the watermark read left it — the insert writes no cache entry
(`c1_counterexample` instantiates this below the batch maximum); (5) over any
sequence of cycles the stored watermark is non-decreasing. -/
theorem c1_watermark_batch_max_and_monotone :
    (∀ (src : List Int) (s s' : MsSqlState) (last : Int),
       runCycleMssql src s = some s' →
       (fetchDelta src (watermarkOf s)).getLast? = some last →
       s'.cache = some last ∧ last ∈ fetchDelta src (watermarkOf s) ∧
         ∀ r ∈ fetchDelta src (watermarkOf s), r ≤ last)
    ∧ (∀ (srcs : List (List Int)) (s s' : MsSqlState),
       runCyclesMssql srcs s = some s' → watermarkOf s ≤ watermarkOf s')
    ∧ (∀ (tbl : List (Int × Int)) (objid : Int) (s : FbState) (m : Int),
       ¬ ((∃ r ∈ get_firebird_data tbl (fbWatermarkOf s) objid, r ∈ s.dest)
           ∨ ¬ (get_firebird_data tbl (fbWatermarkOf s) objid).Nodup) →
       (get_firebird_data tbl (fbWatermarkOf s) objid).max? = some m →
       (runCycleFirebird tbl objid s).cache = some m
         ∧ m ∈ get_firebird_data tbl (fbWatermarkOf s) objid
         ∧ ∀ x ∈ get_firebird_data tbl (fbWatermarkOf s) objid, x ≤ m)
    ∧ (∀ (tbl : List (Int × Int)) (objid : Int) (s : FbState),
       ((∃ r ∈ get_firebird_data tbl (fbWatermarkOf s) objid, r ∈ s.dest)
           ∨ ¬ (get_firebird_data tbl (fbWatermarkOf s) objid).Nodup) →
       (runCycleFirebird tbl objid s).cache = (fbRead s).2.cache)
    ∧ (∀ (objid : Int) (tbls : List (List (Int × Int))) (s : FbState),
       fbWatermarkOf s ≤ fbWatermarkOf (runCyclesFirebird objid tbls s)) := by
  refine ⟨?_, ?_, ?_, ?_, ?_⟩
  · intro src s s' last hrun hlast
    rw [runCycleMssql_some hlast] at hrun
    split_ifs at hrun with hdup
    obtain rfl := Option.some_inj.mp hrun
    exact ⟨rfl, getLast?_mem hlast,
      fun r hr => sorted_le_getLast (fetchDelta_sorted _ _) hlast r hr⟩
  · intro srcs s s' h
    exact runCyclesMssql_wm_mono srcs h
  · intro tbl objid s m hnodup hm
    have hne : get_firebird_data tbl (fbWatermarkOf s) objid ≠ [] := by
      intro h0
      rw [h0] at hm
      exact absurd hm (by simp)
    simp only [runCycleFirebird]
    rw [if_neg (by simpa using hne), insert_into_mssql, if_neg (by simpa using hne),
      fbRead_dest, if_neg hnodup, hm]
    exact ⟨rfl, (max?_spec hm).1, (max?_spec hm).2⟩
  · intro tbl objid s hdup
    have hne : get_firebird_data tbl (fbWatermarkOf s) objid ≠ [] := by
      rintro h0
      rw [h0] at hdup
      rcases hdup with ⟨r, hr, -⟩ | hnd
      · exact absurd hr (List.not_mem_nil r)
      · exact hnd List.nodup_nil
    simp only [runCycleFirebird]
    rw [if_neg (by simpa using hne), insert_into_mssql, if_neg (by simpa using hne),
      fbRead_dest, if_pos hdup]
  · intro objid tbls s
    exact runCyclesFirebird_wm_mono objid tbls s

/-- Witness for `c1_watermark_batch_max_and_monotone`: Scenario A on the
MSSQL worker (watermark 0, source rows 5, 10, 15), a clean Firebird cycle
over `(5,1), (15,1)`, the Scenario B Firebird fallback cycle, and a
one-cycle Firebird sequence from an empty destination. -/
theorem c1_watermark_batch_max_and_monotone_witness :
    ((⟨[5, 10, 15], some 15⟩ : MsSqlState).cache = some 15
      ∧ 15 ∈ fetchDelta [5, 10, 15] (watermarkOf ⟨[], some 0⟩)
      ∧ ∀ r ∈ fetchDelta [5, 10, 15] (watermarkOf ⟨[], some 0⟩), r ≤ 15)
    ∧ watermarkOf (⟨[], some 0⟩ : MsSqlState) ≤ watermarkOf (⟨[5, 10, 15], some 15⟩ : MsSqlState)
    ∧ (runCycleFirebird [(5, 1), (15, 1)] 1 ⟨[], some 0⟩).cache = some 15
    ∧ (runCycleFirebird [(5, 1), (10, 1), (15, 1)] 1 ⟨[10], some 0⟩).cache
        = (fbRead ⟨[10], some 0⟩).2.cache
    ∧ fbWatermarkOf (⟨[], none⟩ : FbState)
        ≤ fbWatermarkOf (runCyclesFirebird 1 [[(5, 1)]] ⟨[], none⟩) :=
  ⟨c1_watermark_batch_max_and_monotone.1 [5, 10, 15] ⟨[], some 0⟩ ⟨[5, 10, 15], some 15⟩ 15
      (by decide) (by decide),
   c1_watermark_batch_max_and_monotone.2.1 [[5, 10, 15]] ⟨[], some 0⟩ ⟨[5, 10, 15], some 15⟩
      (by decide),
   (c1_watermark_batch_max_and_monotone.2.2.1 [(5, 1), (15, 1)] 1 ⟨[], some 0⟩ 15
      (by decide) (by decide)).1,
   c1_watermark_batch_max_and_monotone.2.2.2.1 [(5, 1), (10, 1), (15, 1)] 1 ⟨[10], some 0⟩
      (by decide),
   c1_watermark_batch_max_and_monotone.2.2.2.2 1 [[(5, 1)]] ⟨[], none⟩⟩

/-- C2 counterexample (Scenario B on the DB-to-DB worker, as the claim
states it): destination already holds the row at `:00:10` (key 10), the
cached watermark is `00:00:00` (key 0) and the source returns the three rows
5, 10, 15.  The cycle of `run_sync_mssql_async` does NOT roll back and retry
per row — its `executemany` has no duplicate handling (collector.py:1649),
so the duplicate raises, the exception reaches the worker's outer `except`
and the cycle fails (`none`): the destination gains nothing, the watermark
does not advance, and the worker is marked unhealthy — contradicting
"one cycle completes ... destination gaining the two missing rows ... no
worker failure". -/
theorem c2_counterexample :
    runCycleMssql [5, 10, 15] ⟨[10], some 0⟩ = none := by decide

/-- C2 (amended): the duplicate-tolerant batch insert belongs to
`insert_into_mssql_async`, used by the Firebird→MSSQL worker (not the
DB-to-DB worker, whose batch insert has no duplicate handling — see
`c2_counterexample`).  There, a batch-level duplicate-key failure rolls the
transaction back and re-attempts the rows individually: successes are
committed, failures silently dropped, no exception escapes, and — unlike a
clean batch — the cached watermark is NOT advanced on this path.
Concretely (Scenario B on that path): with the destination holding row 10
and the batch 5, 10, 15, the call completes with the destination gaining
exactly the two missing rows and the cache entry unchanged; in general, on
the fallback path the cache entry is unchanged and the resulting destination
holds exactly the old rows plus the batch rows. -/
theorem c2_firebird_duplicate_fallback :
    insert_into_mssql [5, 10, 15] ⟨[10], some 0⟩ = ⟨[10, 5, 15], some 0⟩
    ∧ (∀ (data : List Int) (s : FbState),
        data ≠ [] →
        ((∃ r ∈ data, r ∈ s.dest) ∨ ¬ data.Nodup) →
        (insert_into_mssql data s).cache = s.cache
          ∧ ∀ x : Int, x ∈ (insert_into_mssql data s).dest ↔ x ∈ s.dest ∨ x ∈ data) := by
  constructor
  · decide
  · intro data s hne hdup
    rw [insert_into_mssql, if_neg (by simpa using hne), if_pos hdup]
    exact ⟨rfl, fun x => perRowInsert_mem data s.dest x⟩

/-- Witness for `c2_firebird_duplicate_fallback` at the Scenario B inputs. -/
theorem c2_firebird_duplicate_fallback_witness :
    (insert_into_mssql [5, 10, 15] ⟨[10], some 0⟩).cache = (⟨[10], some 0⟩ : FbState).cache
    ∧ (15 ∈ (insert_into_mssql [5, 10, 15] ⟨[10], some 0⟩).dest
        ↔ 15 ∈ [(10 : Int)] ∨ 15 ∈ [(5 : Int), 10, 15]) :=
  ⟨(c2_firebird_duplicate_fallback.2 [5, 10, 15] ⟨[10], some 0⟩ (by decide) (by decide)).1,
   (c2_firebird_duplicate_fallback.2 [5, 10, 15] ⟨[10], some 0⟩ (by decide) (by decide)).2 15⟩

/-- C7 counterexample: the Firebird fetch
(`_get_firebird_data_sync`, collector.py:1453) has no `ORDER BY`, so the
delta comes back in the engine's storage order.  With the source table
holding `(RECTIME, OBJID)` rows `(15, 1)` then `(5, 1)`, watermark 0 and
object filter 1, the fetched delta is `[15, 5]` and the insert
(`insert_into_mssql_async`) appends the rows to the destination in exactly
that order, which is not ascending — refuting "every cycle fetches the delta
ordered ascending by the timestamp column". -/
theorem c7_counterexample :
    get_firebird_data [(15, 1), (5, 1)] 0 1 = [15, 5]
    ∧ (insert_into_mssql (get_firebird_data [(15, 1), (5, 1)] 0 1) ⟨[], none⟩).dest = [15, 5]
    ∧ ¬ List.Sorted (· ≤ ·) [(15 : Int), 5] := by
  refine ⟨by decide, by decide, by decide⟩

/-- C7 (amended): in the MSSQL→MSSQL worker the claim holds — the delta is
fetched `ORDER BY [RECTIME] ASC`, hence sorted ascending, and a successful
cycle appends exactly that list to the destination, in that order.  (The
Firebird worker's fetch carries no `ORDER BY`, so no such guarantee holds for
it — see `c7_counterexample`.) -/
theorem c7_mssql_inserts_ascending :
    (∀ (src : List Int) (wm : Int), List.Sorted (· ≤ ·) (fetchDelta src wm))
    ∧ (∀ (src : List Int) (s s' : MsSqlState), runCycleMssql src s = some s' →
        s'.dest = s.dest ++ fetchDelta src (watermarkOf s)) := by
  constructor
  · intro src wm
    exact fetchDelta_sorted src wm
  · intro src s s' h
    cases hlast : (fetchDelta src (watermarkOf s)).getLast? with
    | none =>
      rw [runCycleMssql_none hlast] at h
      obtain rfl := Option.some_inj.mp h
      rw [List.getLast?_eq_none_iff.mp hlast, List.append_nil]
      exact (readWm_stable s).2
    | some last =>
      rw [runCycleMssql_some hlast] at h
      split_ifs at h with hdup
      obtain rfl := Option.some_inj.mp h
      rw [(readWm_stable s).2]

/-- Witness for `c7_mssql_inserts_ascending` on a concrete successful cycle. -/
theorem c7_mssql_inserts_ascending_witness :
    (⟨[5, 10], some 10⟩ : MsSqlState).dest
      = (⟨[5], none⟩ : MsSqlState).dest ++ fetchDelta [10, 3] (watermarkOf ⟨[5], none⟩) :=
  c7_mssql_inserts_ascending.2 [10, 3] ⟨[5], none⟩ ⟨[5, 10], some 10⟩ (by decide)

/-- C6: (1) In the MSSQL→MSSQL worker, a successful cycle whose fetched delta
is empty leaves the watermark unchanged: the value a subsequent read returns
is the same, the destination is untouched, and an existing cache entry is
preserved verbatim (when no entry existed, the read itself may lazily store
the destination's current maximum, which is the same watermark value).
(2) The TC2 worker's end-of-cycle refresh is the sole exception: it adopts
the destination's externally advanced maximum exactly when that maximum
exceeds the recorded watermark — the adopted value is the larger of the two —
and adopts unconditionally when no watermark was recorded. -/
theorem c6_empty_delta_frame :
    (∀ (src : List Int) (s s' : MsSqlState),
       runCycleMssql src s = some s' →
       fetchDelta src (watermarkOf s) = [] →
       watermarkOf s' = watermarkOf s ∧ s'.dest = s.dest
         ∧ ∀ c : Int, s.cache = some c → s'.cache = some c)
    ∧ (∀ (l c : Int), tc2Adopt (some l) c = some (max l c))
    ∧ (∀ c : Int, tc2Adopt none c = some c) := by
  refine ⟨?_, ?_, fun c => rfl⟩
  · intro src s s' hrun hempty
    have hlast : (fetchDelta src (watermarkOf s)).getLast? = none := by
      rw [hempty]
      rfl
    rw [runCycleMssql_none hlast] at hrun
    obtain rfl := Option.some_inj.mp hrun
    refine ⟨(readWm_stable s).1, (readWm_stable s).2, ?_⟩
    intro c hc
    rw [readWm_hit hc]
    exact hc
  · intro l c
    rw [tc2Adopt]
    split_ifs with h
    · simp only [Option.some_inj]
      omega
    · simp only [Option.some_inj]
      omega

/-- Witness for `c6_empty_delta_frame`: a cycle over source `[5]` with cached
watermark 20 reads an empty delta and keeps the cache entry at 20; the TC2
refresh at recorded watermark 3 and destination maximum 7 adopts 7. -/
theorem c6_empty_delta_frame_witness :
    (⟨[10], some 20⟩ : MsSqlState).cache = some 20
    ∧ tc2Adopt (some 3) 7 = some (max 3 7) :=
  ⟨(c6_empty_delta_frame.1 [5] ⟨[10], some 20⟩ ⟨[10], some 20⟩ (by decide) (by decide)).2.2
      20 rfl,
   c6_empty_delta_frame.2.1 3 7⟩

/-- C9: Reading the watermark for a destination table
(`get_last_sync_time_async` with `use_cache=True`): (1) a present cache
entry is returned as-is with the state unchanged; (2) on a cache miss with a
non-null `SELECT MAX(RECTIME)` result, that maximum is returned and stored in
the cache; (3) on a cache miss over an empty destination (null maximum), the
sentinel `datetime(1900, 1, 1)` is returned and the cache stays empty. -/
theorem c9_watermark_read :
    (∀ (s : MsSqlState) (c : Int), s.cache = some c → readWm s = (c, s))
    ∧ (∀ (s : MsSqlState) (m : Int), s.cache = none → s.dest.max? = some m →
        readWm s = (m, { s with cache := some m }))
    ∧ (∀ s : MsSqlState, s.cache = none → s.dest = [] →
        readWm s = (sentinelEpoch, s)) := by
  refine ⟨fun s c h => readWm_hit h, ?_, ?_⟩
  · intro s m hc hm
    obtain ⟨d, cache⟩ := s
    simp only [MsSqlState.mk.injEq] at hc
    subst hc
    simp only at hm
    simp [readWm, get_last_sync_time, hm]
  · intro s hc hd
    obtain ⟨d, cache⟩ := s
    simp only [MsSqlState.mk.injEq] at hc hd
    subst hc
    subst hd
    rfl

/-- Witness for `c9_watermark_read`: a cache hit at 3, a cache miss over a
destination with maximum 7, and a cache miss over an empty destination. -/
theorem c9_watermark_read_witness :
    readWm ⟨[7], some 3⟩ = (3, ⟨[7], some 3⟩)
    ∧ readWm ⟨[7], none⟩ = (7, ⟨[7], some 7⟩)
    ∧ readWm ⟨[], none⟩ = (sentinelEpoch, ⟨[], none⟩) :=
  ⟨c9_watermark_read.1 ⟨[7], some 3⟩ 3 rfl,
   c9_watermark_read.2.1 ⟨[7], none⟩ 7 rfl (by decide),
   c9_watermark_read.2.2 ⟨[], none⟩ rfl rfl⟩

/-- C10: The watermark read never propagates an exception: when the
`MAX(RECTIME)` query or its fetch raises (`queryResult = none`), the call
returns the same sentinel `datetime(1900, 1, 1)` it returns for an empty
table (`queryResult = some none`) — a destination read failure is
indistinguishable from an empty destination — and in the error case the
cache entry is left exactly as it was, for every prior cache content. -/
theorem c10_watermark_read_error_sentinel :
    get_last_sync_time true none none = (sentinelEpoch, none)
    ∧ get_last_sync_time true none none = get_last_sync_time true none (some none)
    ∧ ∀ cache : Option Int, (get_last_sync_time true cache none).2 = cache := by
  refine ⟨rfl, rfl, ?_⟩
  intro cache
  cases cache with
  | none => rfl
  | some c => rfl

lemma fileUpdatedAfterDb_iff (mtime : Int) (db : Option Int) :
    fileUpdatedAfterDb mtime db = true ↔ (db = none ∨ ∃ d, db = some d ∧ d < mtime) := by
  cases db with
  | none => simp [fileUpdatedAfterDb]
  | some d => simp [fileUpdatedAfterDb]

/-- C5: (1) A current-day file is selected exactly when it was never checked,
or at least `file_check_interval` seconds have elapsed since its last check,
or its modification time is newer than the watermark (`last_db_record`; also
when no watermark exists) and at least 300 seconds have elapsed since its
last check.  (2) Scenario D with `file_check_interval = 3600`: the file is
modified at instant 0 and each processing lands records up to instant -30;
the scan at +1 min processes it (never checked) and records the check, the
scan at +2 min skips it (60 s < 300 s since the last check) and records
nothing, the scan at +7 min processes it again (modified after the watermark
and 360 s ≥ 300 s since the last check).  (3) In general a scan that skips
the file leaves its last-check record unchanged — it is recorded only when
the file is actually processed. -/
theorem c5_today_file_selection :
    (∀ (now mtime interval : Int) (db lc : Option Int),
       shouldProcessToday now mtime db lc interval = true ↔
         (lc = none
          ∨ ∃ l, lc = some l ∧
              (interval ≤ now - l
               ∨ ((db = none ∨ ∃ d, db = some d ∧ d < mtime) ∧ 300 ≤ now - l))))
    ∧ (scanStep 60 0 (some (-30)) 3600 none = (true, some 60)
       ∧ scanStep 120 0 (some (-30)) 3600 (some 60) = (false, some 60)
       ∧ scanStep 420 0 (some (-30)) 3600 (some 60) = (true, some 420))
    ∧ (∀ (now mtime interval : Int) (db lc : Option Int),
        (scanStep now mtime db interval lc).1 = false →
        (scanStep now mtime db interval lc).2 = lc) := by
  refine ⟨?_, ⟨by decide, by decide, by decide⟩, ?_⟩
  · intro now mtime interval db lc
    cases lc with
    | none => simp [shouldProcessToday]
    | some l =>
      rw [shouldProcessToday]
      split_ifs with h1 h2
      · simp only [true_iff]
        exact Or.inr ⟨l, rfl, Or.inl h1⟩
      · rw [Bool.and_eq_true, decide_eq_true_iff] at h2
        simp only [true_iff]
        exact Or.inr ⟨l, rfl, Or.inr ⟨(fileUpdatedAfterDb_iff mtime db).mp h2.1, h2.2⟩⟩
      · simp only [Bool.false_eq_true, false_iff]
        rintro (hnone | ⟨l', hl, hcase⟩)
        · exact hnone
        · obtain rfl := Option.some_inj.mp hl
          rcases hcase with hint | ⟨hupd, h300⟩
          · exact h1 hint
          · exact h2 (by
              rw [Bool.and_eq_true, decide_eq_true_iff]
              exact ⟨(fileUpdatedAfterDb_iff mtime db).mpr hupd, h300⟩)
  · intro now mtime interval db lc h
    simp only [scanStep] at h ⊢
    rw [h]
    simp

/-- Witness for `c5_today_file_selection`: the skipped scan at +2 min leaves
the last-check record at 60. -/
theorem c5_today_file_selection_witness :
    (scanStep 120 0 (some (-30)) 3600 (some 60)).2 = some 60 :=
  c5_today_file_selection.2.2 120 0 3600 (some (-30)) (some 60) (by decide)
